import Mathlib

/-
Verification of the dynamic menu / route / session layer of the
work_assistant front end.

The Lean definitions below are a shallow embedding of the TypeScript
source:
  frontend/src/stores/menu.ts   (buildMenuTree, filterVisibleMenus,
                                 generateRoutes, resolveComponent)
  frontend/src/stores/user.ts   (login, fetchUserInfo, refreshUserToken,
                                 logout, hasPermission, hasAnyPermission,
                                 hasAllPermissions)
  frontend/src/api/request.ts   (response interceptor, claude_code)
  frontend/src/api/http.ts      (response interceptor, qwn_code)
  src/unnamed/part_013          (router.beforeEach navigation guard)
  src/unnamed/part_021          (response interceptor)

JavaScript-specific behaviour is modelled explicitly: truthiness of an
optional numeric field (null and 0 are falsy), truthiness of a string
(the empty string is falsy), and the stable ascending Array.sort with
the comparator (a, b) => a.orderNum - b.orderNum, which is embedded as
the stable List.mergeSort with the boolean order a.orderNum ≤ b.orderNum.
-/

namespace WA

/-- Flat menu record, the `MenuItem` interface of stores/menu.ts.
`parentId` and the string fields are optional in the source; `type` is
0 = directory, 1 = navigable menu page, 2 = permission marker. -/
structure MenuItem where
  id : Int
  parentId : Option Int
  name : String
  router : Option String
  perms : Option String
  type : Nat
  icon : Option String
  orderNum : Int
  isShow : Bool
  keepAlive : Bool
deriving DecidableEq, Repr

/-- JS truthiness of an optional number: `null`/absent and `0` are falsy. -/
def truthyId : Option Int → Bool
  | none => false
  | some v => v != 0

/-- JS truthiness of an optional string: absent and `""` are falsy. -/
def truthyStr : Option String → Bool
  | none => false
  | some s => s != ""

/-- The identifiers of a flat list, in order. -/
def idsOf (items : List MenuItem) : List Int :=
  items.map (fun it => it.id)

/-- The parent a record attaches to in buildMenuTree's second pass:
`some p` exactly when the source condition `item.parentId && map.has(item.parentId)`
holds (`parentId` truthy and present among the input identifiers),
otherwise `none` and the record is pushed to the root list. -/
def attachTarget (items : List MenuItem) (j : MenuItem) : Option Int :=
  match j.parentId with
  | some p => if p != 0 && decide (p ∈ idsOf items) then some p else none
  | none => none

/-- The records buildMenuTree pushes to `roots`, in input order. -/
def rootsOf (items : List MenuItem) : List MenuItem :=
  items.filter (fun j => (attachTarget items j).isNone)

/-- The records buildMenuTree pushes onto the child list of the node with
identifier `i`, in input order. -/
def childrenOf (items : List MenuItem) (i : Int) : List MenuItem :=
  items.filter (fun j => attachTarget items j == some i)

/-- A materialized menu tree node: a record together with its assembled
child list (the `children` field allocated by buildMenuTree). -/
inductive MTree where
  | node (item : MenuItem) (children : List MTree)
deriving Repr

/-- The record stored at a tree node. -/
def MTree.item : MTree → MenuItem
  | .node it _ => it

/-- The child list of a tree node. -/
def MTree.children : MTree → List MTree
  | .node _ cs => cs

/-- Materialisation of the child-map graph built by buildMenuTree into
trees, with a fuel bound on the depth.  `buildSub items fuel l` turns the
records of `l` into nodes whose children are computed from `childrenOf`
with one unit of fuel less; with fuel `items.length` every acyclic child
chain is fully materialised. -/
def buildSub (items : List MenuItem) : Nat → List MenuItem → List MTree
  | 0, l => l.map (fun it => MTree.node it [])
  | fuel + 1, l =>
      l.map (fun it => MTree.node it (buildSub items fuel (childrenOf items it.id)))

/-- Function `buildMenuTree` of stores/menu.ts: index every record by identifier,
then attach each record to its parent's child list when the parent
identifier is truthy and present, else push it to the root list.  The
returned forest is the root list with the assembled child structure. -/
def buildMenuTree (items : List MenuItem) : List MTree :=
  buildSub items items.length (rootsOf items)

mutual

/-- Pre-order traversal of one tree: the node's identifier followed by
the identifiers of its descendants. -/
def preorderT : MTree → List Int
  | .node it cs => it.id :: preorderF cs

/-- Pre-order traversal of a forest, left to right. -/
def preorderF : List MTree → List Int
  | [] => []
  | t :: ts => preorderT t ++ preorderF ts

end

/-- Building the menu tree and flattening it again by pre-order traversal. -/
def flattenIds (items : List MenuItem) : List Int :=
  preorderF (buildMenuTree items)

/-- The boolean comparator of filterVisibleMenus' `.sort`: the JS
comparator `(a, b) => a.orderNum - b.orderNum` sorts ascending by
`orderNum`, stably. -/
def menuLe (a b : MTree) : Bool :=
  decide (a.item.orderNum ≤ b.item.orderNum)

mutual

/-- One retained node of filterVisibleMenus: the record itself with its
children recursively filtered (and sorted, as the recursive call sorts
each level). -/
def filterVisT : MTree → MTree
  | .node it cs => .node it (List.mergeSort (filterVisF cs) menuLe)

/-- The filter-and-map part of filterVisibleMenus: drop nodes that are
hidden or of permission-marker type (type 2), recurse into the rest. -/
def filterVisF : List MTree → List MTree
  | [] => []
  | t :: ts =>
      if t.item.isShow && t.item.type != 2 then filterVisT t :: filterVisF ts
      else filterVisF ts

end

/-- Function `filterVisibleMenus` of stores/menu.ts: filter to visible non-marker
nodes, recursively filter their children, and sort each level ascending
by `orderNum`. -/
def filterVisibleMenus (ts : List MTree) : List MTree :=
  List.mergeSort (filterVisF ts) menuLe

/-- Adjacent-pairs check: the forest level is non-decreasing in `orderNum`. -/
def pairwiseAsc : List MTree → Bool
  | [] => true
  | [_] => true
  | a :: b :: r => decide (a.item.orderNum ≤ b.item.orderNum) && pairwiseAsc (b :: r)

mutual

/-- Every level strictly inside the tree is non-decreasing in `orderNum`. -/
def sortedT : MTree → Bool
  | .node _ cs => pairwiseAsc cs && sortedF cs

/-- Every level strictly inside each tree of the forest is non-decreasing. -/
def sortedF : List MTree → Bool
  | [] => true
  | t :: ts => sortedT t && sortedF ts

end

/-- Children at every level of the forest, the top level included, are
non-decreasing in their `orderNum` field. -/
def sortedLevels (ts : List MTree) : Bool :=
  pairwiseAsc ts && sortedF ts

theorem menuLe_trans (a b c : MTree) (hab : menuLe a b = true) (hbc : menuLe b c = true) :
    menuLe a c = true := by
  simp only [menuLe, decide_eq_true_eq] at *
  omega

theorem menuLe_total (a b : MTree) : (menuLe a b || menuLe b a) = true := by
  simp only [menuLe, Bool.or_eq_true, decide_eq_true_eq]
  omega

theorem pairwiseAsc_of_pairwise :
    ∀ l : List MTree, l.Pairwise (fun a b => menuLe a b = true) → pairwiseAsc l = true
  | [], _ => rfl
  | [_], _ => rfl
  | a :: b :: r, h => by
      rw [List.pairwise_cons] at h
      have hab : menuLe a b = true := h.1 b (by simp)
      have hr : pairwiseAsc (b :: r) = true := pairwiseAsc_of_pairwise (b :: r) h.2
      simp only [menuLe] at hab
      simp [pairwiseAsc, hab, hr]

theorem pairwiseAsc_mergeSort (l : List MTree) :
    pairwiseAsc (List.mergeSort l menuLe) = true :=
  pairwiseAsc_of_pairwise _ (List.sorted_mergeSort menuLe_trans menuLe_total l)

theorem sortedF_all : ∀ l : List MTree, sortedF l = l.all sortedT
  | [] => rfl
  | t :: ts => by simp [sortedF, List.all_cons, sortedF_all ts]

theorem sortedF_of_perm {l1 l2 : List MTree} (h : l1.Perm l2) :
    sortedF l1 = sortedF l2 := by
  rw [sortedF_all, sortedF_all]
  rw [Bool.eq_iff_iff]
  simp only [List.all_eq_true]
  constructor
  · intro ha x hx
    exact ha x (h.mem_iff.mpr hx)
  · intro ha x hx
    exact ha x (h.mem_iff.mp hx)

theorem sortedF_mergeSort (l : List MTree) (h : sortedF l = true) :
    sortedF (List.mergeSort l menuLe) = true := by
  rw [sortedF_of_perm (List.mergeSort_perm l menuLe)]
  exact h

theorem sortedT_filterVisT_node (it : MenuItem) (cs : List MTree)
    (h : sortedF (filterVisF cs) = true) :
    sortedT (filterVisT (.node it cs)) = true := by
  simp only [filterVisT, sortedT]
  rw [pairwiseAsc_mergeSort, sortedF_mergeSort _ h]
  rfl

theorem sortedF_filterVisF_cons (t : MTree) (ts : List MTree)
    (h1 : sortedT (filterVisT t) = true) (h2 : sortedF (filterVisF ts) = true) :
    sortedF (filterVisF (t :: ts)) = true := by
  simp only [filterVisF]
  by_cases h : (t.item.isShow && t.item.type != 2) = true
  · simp [h, sortedF, h1, h2]
  · simp only [Bool.not_eq_true] at h
    simp [h, h2]

mutual

theorem sortedT_filterVisT : ∀ t : MTree, sortedT (filterVisT t) = true
  | .node it cs => sortedT_filterVisT_node it cs (sortedF_filterVisF cs)

theorem sortedF_filterVisF : ∀ ts : List MTree, sortedF (filterVisF ts) = true
  | [] => rfl
  | t :: ts => sortedF_filterVisF_cons t ts (sortedT_filterVisT t) (sortedF_filterVisF ts)

end

theorem sortedLevels_filterVisibleMenus (ts : List MTree) :
    sortedLevels (filterVisibleMenus ts) = true := by
  simp only [sortedLevels, filterVisibleMenus]
  rw [pairwiseAsc_mergeSort, sortedF_mergeSort _ (sortedF_filterVisF ts)]
  rfl

/-- C1 (amended): the tree produced by the visibility pass is sorted
ascending by `orderNum` at every level; the unfiltered tree produced by
construction is not sorted (it preserves input order). -/
theorem filtered_menu_tree_sorted (items : List MenuItem) :
    sortedLevels (filterVisibleMenus (buildMenuTree items)) = true :=
  sortedLevels_filterVisibleMenus (buildMenuTree items)

/-- Two root records with distinct identifiers, delivered in descending
`orderNum` order: the tree builder keeps input order, so the claim's
sortedness of the unfiltered tree fails. -/
def exC1 : List MenuItem :=
  [⟨1, none, "B", none, none, 0, none, 2, true, false⟩,
   ⟨2, none, "A", none, none, 0, none, 1, true, false⟩]

/-- C1 counterexample: on a flat list with distinct identifiers the
unfiltered tree returned by the menu tree builder is not sorted by the
display-order field at the top level. -/
theorem menu_unfiltered_unsorted_counterexample :
    (idsOf exC1).Nodup ∧ sortedLevels (buildMenuTree exC1) = false := by
  decide

/-- The node a record is attached under: defined when the record attaches
at all, and then the (unique, for distinct identifiers) input record
carrying the parent identifier. -/
def par (items : List MenuItem) (a : MenuItem) : Option MenuItem :=
  match attachTarget items a with
  | none => none
  | some p => items.find? (fun x => x.id == p)

/-- The k-fold parent chase starting at a record. -/
def ancOpt (items : List MenuItem) : Nat → MenuItem → Option MenuItem
  | 0, j => some j
  | k + 1, j =>
      match ancOpt items k j with
      | none => none
      | some a => par items a

/-- A record that buildMenuTree pushes to the root list. -/
def isRootRec (items : List MenuItem) (a : MenuItem) : Bool :=
  (attachTarget items a).isNone

/-- The parent chain of the record reaches a root within `items.length`
steps.  This fails exactly on parent cycles, where buildMenuTree builds
a cyclic structure reachable from no root. -/
def reachesRoot (items : List MenuItem) (j : MenuItem) : Bool :=
  (List.range (items.length + 1)).any (fun k =>
    match ancOpt items k j with
    | some a => isRootRec items a
    | none => false)

/-- Every record's parent chain terminates at a root. -/
def acyclicParents (items : List MenuItem) : Bool :=
  items.all (reachesRoot items)

/-- Whether the k-th ancestor of `j` lies in the list `l`. -/
def ancHit (items : List MenuItem) (l : List MenuItem) (j : MenuItem) (k : Nat) : Bool :=
  match ancOpt items k j with
  | some a => decide (a ∈ l)
  | none => false

/-- How many of the first `bound` ancestors of `j` lie in `l`. -/
def hitCount (items : List MenuItem) (l : List MenuItem) (j : MenuItem) (bound : Nat) : Nat :=
  (List.range bound).countP (ancHit items l j)

theorem idsOf_cons (a : MenuItem) (l : List MenuItem) :
    idsOf (a :: l) = a.id :: idsOf l := rfl

theorem ids_nodup_of_sublist {items l : List MenuItem} (hs : l.Sublist items)
    (h : (idsOf items).Nodup) : (idsOf l).Nodup := by
  simp only [idsOf] at h ⊢
  exact (List.Sublist.map (fun it => it.id) hs).nodup h

theorem id_inj {items : List MenuItem} (h : (idsOf items).Nodup)
    {a b : MenuItem} (ha : a ∈ items) (hb : b ∈ items) (hid : a.id = b.id) : a = b := by
  simp only [idsOf] at h
  exact @List.inj_on_of_nodup_map _ _ (fun it => it.id) items h a ha b hb hid

theorem find?_id {items : List MenuItem} (h : (idsOf items).Nodup)
    {it : MenuItem} (hm : it ∈ items) :
    items.find? (fun x => x.id == it.id) = some it := by
  induction items with
  | nil => cases hm
  | cons a rest ih =>
      rw [idsOf_cons, List.nodup_cons] at h
      rcases List.mem_cons.mp hm with rfl | hm2
      · simp [List.find?]
      · have hne : (a.id == it.id) = false := by
          apply beq_eq_false_iff_ne.mpr
          intro hcon
          exact h.1 (hcon ▸ List.mem_map_of_mem (fun x => x.id) hm2)
        simp [List.find?, hne]
        exact ih h.2 hm2

theorem mem_childrenOf {items : List MenuItem} {a : MenuItem} {i : Int} :
    a ∈ childrenOf items i ↔ a ∈ items ∧ attachTarget items a = some i := by
  simp [childrenOf, List.mem_filter]

theorem mem_rootsOf {items : List MenuItem} {a : MenuItem} :
    a ∈ rootsOf items ↔ a ∈ items ∧ attachTarget items a = none := by
  simp [rootsOf, List.mem_filter, Option.isNone_iff_eq_none]

theorem par_mem {items : List MenuItem} {a b : MenuItem} (h : par items a = some b) :
    b ∈ items := by
  unfold par at h
  cases hat : attachTarget items a with
  | none => rw [hat] at h; cases h
  | some p =>
      rw [hat] at h
      exact List.mem_of_find?_eq_some h

theorem ancOpt_mem {items : List MenuItem} {j : MenuItem} (hj : j ∈ items) :
    ∀ (k : Nat) {a : MenuItem}, ancOpt items k j = some a → a ∈ items
  | 0, a, h => by
      simp only [ancOpt] at h
      exact (Option.some_inj.mp h) ▸ hj
  | k + 1, a, h => by
      simp only [ancOpt] at h
      cases hk : ancOpt items k j with
      | none => rw [hk] at h; cases h
      | some b => rw [hk] at h; exact par_mem h

theorem par_of_children {items : List MenuItem} (hids : (idsOf items).Nodup)
    {it a : MenuItem} (hit : it ∈ items) (ha : a ∈ childrenOf items it.id) :
    par items a = some it := by
  obtain ⟨_, hat⟩ := mem_childrenOf.mp ha
  unfold par
  rw [hat]
  exact find?_id hids hit

theorem children_of_par {items : List MenuItem} {a it : MenuItem}
    (ha : a ∈ items) (h : par items a = some it) :
    a ∈ childrenOf items it.id := by
  unfold par at h
  cases hat : attachTarget items a with
  | none => rw [hat] at h; cases h
  | some p =>
      rw [hat] at h
      have hpred : it.id = p := by
        have := List.find?_some h
        simpa using this
      exact mem_childrenOf.mpr ⟨ha, by rw [hat, hpred]⟩

theorem ancOpt_succ_eq_some_iff {items : List MenuItem} (hids : (idsOf items).Nodup)
    {j it : MenuItem} (hj : j ∈ items) (hit : it ∈ items) (k : Nat) :
    ancOpt items (k + 1) j = some it ↔
      ∃ a, ancOpt items k j = some a ∧ a ∈ childrenOf items it.id := by
  constructor
  · intro h
    simp only [ancOpt] at h
    cases hk : ancOpt items k j with
    | none => rw [hk] at h; cases h
    | some a =>
        rw [hk] at h
        exact ⟨a, rfl, children_of_par (ancOpt_mem hj k hk) h⟩
  · rintro ⟨a, hk, hc⟩
    simp only [ancOpt]
    rw [hk]
    exact par_of_children hids hit hc

theorem ancOpt_none_succ {items : List MenuItem} {j : MenuItem} {k : Nat}
    (h : ancOpt items k j = none) : ancOpt items (k + 1) j = none := by
  simp only [ancOpt]
  rw [h]

theorem ancOpt_none_mono {items : List MenuItem} {j : MenuItem} {k m : Nat}
    (hkm : k ≤ m) (h : ancOpt items k j = none) : ancOpt items m j = none := by
  induction hkm with
  | refl => exact h
  | step _ ih => exact ancOpt_none_succ ih

theorem ancOpt_root_dead {items : List MenuItem} {j a : MenuItem} {k : Nat}
    (hk : ancOpt items k j = some a) (hroot : attachTarget items a = none)
    {m : Nat} (hm : k < m) : ancOpt items m j = none := by
  have h1 : ancOpt items (k + 1) j = none := by
    simp only [ancOpt]
    rw [hk]
    show par items a = none
    unfold par
    rw [hroot]
  exact ancOpt_none_mono hm h1

theorem countP_or_disjoint (l : List Nat) (p q : Nat → Bool)
    (hdisj : ∀ k, p k = true → q k = false) :
    l.countP (fun k => p k || q k) = l.countP p + l.countP q := by
  induction l with
  | nil => simp
  | cons a l ih =>
      simp only [List.countP_cons, ih]
      cases hp : p a with
      | true => have hq := hdisj a hp; simp [hp, hq]; omega
      | false => cases hq : q a <;> simp [hp, hq] <;> omega

theorem countP_range_succ_shift (n : Nat) (p : Nat → Bool) :
    (List.range (n + 1)).countP p =
      (if p 0 = true then 1 else 0) + (List.range n).countP (fun k => p (k + 1)) := by
  rw [List.range_succ_eq_map, List.countP_cons, List.countP_map]
  have : (p ∘ Nat.succ) = fun k => p (k + 1) := rfl
  rw [this]
  omega

theorem countP_eq_one_unique (p : Nat → Bool) (k : Nat) :
    ∀ l : List Nat, l.Nodup → k ∈ l → p k = true →
    (∀ m ∈ l, p m = true → m = k) → l.countP p = 1 := by
  intro l
  induction l with
  | nil => intro _ hk; cases hk
  | cons a l ih =>
      intro hnd hk hpk huniq
      rw [List.nodup_cons] at hnd
      rw [List.countP_cons]
      rcases List.mem_cons.mp hk with rfl | hk2
      · have hz : l.countP p = 0 := by
          rw [List.countP_eq_length_filter]
          have : l.filter p = [] := by
            rw [List.filter_eq_nil]
            intro m hm hpm
            exact hnd.1 ((huniq m (List.mem_cons_of_mem _ hm) hpm) ▸ hm)
          rw [this]
          rfl
        simp [hz, hpk]
      · have ha : p a = false := by
          cases hpa : p a with
          | false => rfl
          | true =>
              have := huniq a (List.mem_cons_self a l) hpa
              exact absurd (this ▸ hk2) hnd.1
        have := ih hnd.2 hk2 hpk (fun m hm hpm => huniq m (List.mem_cons_of_mem _ hm) hpm)
        simp [ha, this]

theorem buildSub_zero_cons (items : List MenuItem) (it : MenuItem) (rest : List MenuItem) :
    buildSub items 0 (it :: rest) = MTree.node it [] :: buildSub items 0 rest := by
  simp [buildSub]

theorem buildSub_succ_cons (items : List MenuItem) (fuel : Nat) (it : MenuItem)
    (rest : List MenuItem) :
    buildSub items (fuel + 1) (it :: rest) =
      MTree.node it (buildSub items fuel (childrenOf items it.id)) ::
        buildSub items (fuel + 1) rest := by
  simp [buildSub]

theorem buildSub_nil (items : List MenuItem) (fuel : Nat) :
    buildSub items fuel [] = [] := by
  cases fuel <;> simp [buildSub]

theorem preorderF_depth0 (items : List MenuItem) :
    ∀ l : List MenuItem, preorderF (buildSub items 0 l) = idsOf l
  | [] => rfl
  | it :: rest => by
      rw [buildSub_zero_cons]
      simp only [preorderF, preorderT, idsOf_cons]
      rw [preorderF_depth0 items rest]
      simp [preorderF]

theorem count_id_ids {items l : List MenuItem} (hids : (idsOf items).Nodup)
    (hl : l.Sublist items) {j : MenuItem} (hj : j ∈ items) :
    List.count j.id (idsOf l) = if j ∈ l then 1 else 0 := by
  by_cases hm : j ∈ l
  · rw [if_pos hm]
    exact List.count_eq_one_of_mem (ids_nodup_of_sublist hl hids)
      (List.mem_map_of_mem (fun it => it.id) hm)
  · rw [if_neg hm]
    rw [List.count_eq_zero]
    intro hcon
    simp only [idsOf, List.mem_map] at hcon
    obtain ⟨x, hx, hxid⟩ := hcon
    exact hm ((id_inj hids (hl.subset hx) hj hxid) ▸ hx)

theorem count_preorder_buildSub {items : List MenuItem} (hids : (idsOf items).Nodup) :
    ∀ (fuel : Nat) (l : List MenuItem), l.Sublist items →
      ∀ {j : MenuItem}, j ∈ items →
      List.count j.id (preorderF (buildSub items fuel l)) = hitCount items l j (fuel + 1) := by
  intro fuel
  induction fuel with
  | zero =>
      intro l hl j hj
      rw [preorderF_depth0, count_id_ids hids hl hj]
      have hr1 : List.range (0 + 1) = [0] := by decide
      simp only [hitCount, hr1, List.countP_cons, List.countP_nil]
      have h0 : ancHit items l j 0 = decide (j ∈ l) := by
        unfold ancHit
        simp [ancOpt]
      rw [h0]
      by_cases hm : j ∈ l <;> simp [hm]
  | succ fuel ihf =>
      intro l
      induction l with
      | nil =>
          intro _ j hj
          rw [buildSub_nil]
          have hfun : ancHit items [] j = fun _ => false := by
            funext k
            unfold ancHit
            cases ancOpt items k j <;> simp
          show List.count j.id (preorderF []) = hitCount items [] j (fuel + 1 + 1)
          unfold hitCount
          rw [hfun]
          simp [preorderF]
      | cons it rest ihl =>
          intro hl j hj
          have hit : it ∈ items := hl.subset (List.mem_cons_self it rest)
          have hrest : rest.Sublist items := (List.sublist_cons_self it rest).trans hl
          have hndl : (idsOf (it :: rest)).Nodup := ids_nodup_of_sublist hl hids
          rw [idsOf_cons, List.nodup_cons] at hndl
          have hitnotin : it ∉ rest := fun hcon =>
            hndl.1 (List.mem_map_of_mem (fun x => x.id) hcon)
          rw [buildSub_succ_cons]
          simp only [preorderF, preorderT, List.cons_append]
          rw [List.count_cons, List.count_append]
          rw [ihf (childrenOf items it.id) (List.filter_sublist items) hj]
          rw [ihl hrest hj]
          have hsplit : ancHit items (it :: rest) j =
              fun k => (decide (ancOpt items k j = some it) || ancHit items rest j k) := by
            funext k
            unfold ancHit
            cases hk : ancOpt items k j with
            | none => simp
            | some a =>
                by_cases h1 : a = it <;> by_cases h2 : a ∈ rest <;>
                  simp [List.mem_cons, h1, h2]
          have hdisj : ∀ k, decide (ancOpt items k j = some it) = true →
              ancHit items rest j k = false := by
            intro k hk
            rw [decide_eq_true_eq] at hk
            unfold ancHit
            rw [hk]
            simp [hitnotin]
          have hrhs : hitCount items (it :: rest) j (fuel + 1 + 1) =
              (List.range (fuel + 1 + 1)).countP
                  (fun k => decide (ancOpt items k j = some it)) +
                hitCount items rest j (fuel + 1 + 1) := by
            unfold hitCount
            rw [hsplit]
            exact countP_or_disjoint _ _ _ hdisj
          rw [hrhs]
          have hpt : (fun k => decide (ancOpt items (k + 1) j = some it)) =
              ancHit items (childrenOf items it.id) j := by
            funext k
            unfold ancHit
            cases hk : ancOpt items k j with
            | none =>
                have := ancOpt_none_succ hk
                simp [this]
            | some a =>
                have hiff : ancOpt items (k + 1) j = some it ↔ a ∈ childrenOf items it.id := by
                  rw [ancOpt_succ_eq_some_iff hids hj hit k]
                  constructor
                  · rintro ⟨b, hb, hbc⟩
                    rw [hk] at hb
                    exact (Option.some_inj.mp hb) ▸ hbc
                  · intro hc
                    exact ⟨a, hk, hc⟩
                simp [hiff]
          have hA : (List.range (fuel + 1 + 1)).countP
              (fun k => decide (ancOpt items k j = some it)) =
              (if (it.id == j.id) = true then 1 else 0) +
                hitCount items (childrenOf items it.id) j (fuel + 1) := by
            rw [countP_range_succ_shift]
            congr 1
            · simp only [ancOpt]
              by_cases hji : j = it
              · subst hji
                simp
              · have hne : it.id ≠ j.id := fun hcon => hji (id_inj hids hit hj hcon).symm
                simp [Option.some.injEq, hji, beq_iff_eq, hne]
            · unfold hitCount
              rw [hpt]
          rw [hA]
          by_cases hb : (it.id == j.id) = true <;> simp [hb] <;> omega

theorem mem_preorder_buildSub {items : List MenuItem} :
    ∀ (fuel : Nat) (l : List MenuItem), l.Sublist items →
      ∀ x ∈ preorderF (buildSub items fuel l), x ∈ idsOf items := by
  intro fuel
  induction fuel with
  | zero =>
      intro l hl x hx
      rw [preorderF_depth0] at hx
      simp only [idsOf, List.mem_map] at hx ⊢
      obtain ⟨a, ha, rfl⟩ := hx
      exact ⟨a, hl.subset ha, rfl⟩
  | succ fuel ihf =>
      intro l
      induction l with
      | nil =>
          intro _ x hx
          rw [buildSub_nil] at hx
          simp [preorderF] at hx
      | cons it rest ihl =>
          intro hl x hx
          rw [buildSub_succ_cons] at hx
          simp only [preorderF, preorderT, List.cons_append, List.mem_cons,
            List.mem_append] at hx
          rcases hx with rfl | hx | hx
          · exact List.mem_map_of_mem _ (hl.subset (List.mem_cons_self it rest))
          · exact ihf _ (List.filter_sublist items) x hx
          · exact ihl ((List.sublist_cons_self it rest).trans hl) x hx

theorem count_flattenIds_eq_one {items : List MenuItem} (hids : (idsOf items).Nodup)
    {j : MenuItem} (hj : j ∈ items) (hr : reachesRoot items j = true) :
    List.count j.id (flattenIds items) = 1 := by
  unfold flattenIds buildMenuTree
  rw [count_preorder_buildSub hids items.length (rootsOf items)
    (List.filter_sublist items) hj]
  unfold hitCount
  unfold reachesRoot at hr
  rw [List.any_eq_true] at hr
  obtain ⟨k0, hk0mem, hk0⟩ := hr
  cases hanc : ancOpt items k0 j with
  | none => rw [hanc] at hk0; cases hk0
  | some a0 =>
      rw [hanc] at hk0
      have hroot : attachTarget items a0 = none := by
        unfold isRootRec at hk0
        exact Option.isNone_iff_eq_none.mp hk0
      have ha0mem : a0 ∈ items := ancOpt_mem hj k0 hanc
      have ha0roots : a0 ∈ rootsOf items := mem_rootsOf.mpr ⟨ha0mem, hroot⟩
      apply countP_eq_one_unique (ancHit items (rootsOf items) j) k0
      · exact List.nodup_range _
      · exact hk0mem
      · unfold ancHit
        rw [hanc]
        simp [ha0roots]
      · intro m hm hpm
        unfold ancHit at hpm
        cases hancm : ancOpt items m j with
        | none => rw [hancm] at hpm; cases hpm
        | some am =>
            rw [hancm] at hpm
            have ham : am ∈ rootsOf items := of_decide_eq_true hpm
            have hrootm : attachTarget items am = none := (mem_rootsOf.mp ham).2
            by_contra hne
            rcases Nat.lt_or_ge m k0 with hlt | hge
            · exact absurd hanc (by rw [ancOpt_root_dead hancm hrootm hlt]; simp)
            · have hlt2 : k0 < m := Nat.lt_of_le_of_ne hge (fun h => hne h.symm)
              exact absurd hancm (by rw [ancOpt_root_dead hanc hroot hlt2]; simp)

theorem count_flattenIds_eq_zero {items : List MenuItem} {x : Int}
    (hx : x ∉ idsOf items) : List.count x (flattenIds items) = 0 := by
  rw [List.count_eq_zero]
  intro hcon
  exact hx (mem_preorder_buildSub items.length (rootsOf items)
    (List.filter_sublist items) x hcon)

theorem buildSub_map_item (items : List MenuItem) (fuel : Nat) (l : List MenuItem) :
    (buildSub items fuel l).map MTree.item = l := by
  cases fuel with
  | zero =>
      simp only [buildSub, List.map_map]
      have : (MTree.item ∘ fun it => MTree.node it []) = fun it => it := rfl
      rw [this]
      exact List.map_id l
  | succ fuel =>
      simp only [buildSub, List.map_map]
      have : (MTree.item ∘ fun it =>
          MTree.node it (buildSub items fuel (childrenOf items it.id))) = fun it => it := rfl
      rw [this]
      exact List.map_id l

/-- C2 (amended): for every flat list of menu records with distinct
identifiers whose parent chains are acyclic (every record reaches a root
by following parent identifiers), building the tree and flattening it by
pre-order traversal yields exactly the input identifiers as a multiset,
without duplicates, and every record whose parent identifier is null or
absent from the input set appears as a root of the forest.  Without the
acyclicity restriction the claim is false: records on a parent cycle are
reachable from no root and are dropped by the traversal. -/
theorem menu_tree_roundtrip (items : List MenuItem)
    (hids : (idsOf items).Nodup) (hacyc : acyclicParents items = true) :
    (flattenIds items).Perm (idsOf items) ∧ (flattenIds items).Nodup ∧
      (∀ j ∈ items,
        (j.parentId = none ∨ ∀ p, j.parentId = some p → p ∉ idsOf items) →
        ∃ t ∈ buildMenuTree items, MTree.item t = j) := by
  have hperm : (flattenIds items).Perm (idsOf items) := by
    rw [List.perm_iff_count]
    intro x
    by_cases hx : x ∈ idsOf items
    · have hx2 := hx
      simp only [idsOf, List.mem_map] at hx2
      obtain ⟨j, hj, rfl⟩ := hx2
      have hreach : reachesRoot items j = true := List.all_eq_true.mp hacyc j hj
      rw [count_flattenIds_eq_one hids hj hreach,
        List.count_eq_one_of_mem hids hx]
    · rw [count_flattenIds_eq_zero hx, List.count_eq_zero.mpr hx]
  refine ⟨hperm, hperm.symm.nodup hids, ?_⟩
  intro j hj horph
  have hat : attachTarget items j = none := by
    unfold attachTarget
    rcases horph with hnone | habs
    · rw [hnone]
    · cases hp : j.parentId with
      | none => rfl
      | some p =>
          have hnm := habs p hp
          simp [hnm]
  have hjroot : j ∈ rootsOf items := mem_rootsOf.mpr ⟨hj, hat⟩
  have hmap := buildSub_map_item items items.length (rootsOf items)
  unfold buildMenuTree
  rw [← hmap] at hjroot
  obtain ⟨t, ht, hti⟩ := List.mem_map.mp hjroot
  exact ⟨t, ht, hti⟩

/-- A single record that names itself as parent: identifiers are
distinct, yet buildMenuTree attaches the node to itself, the root list
stays empty and the record vanishes from the flattened tree. -/
def exC2 : List MenuItem :=
  [⟨1, some 1, "Self", none, none, 0, none, 1, true, false⟩]

/-- C2 counterexample: a flat list with distinct identifiers whose
flattening after tree construction loses a record, refuting the claim
as stated (without an acyclicity restriction). -/
theorem menu_roundtrip_counterexample :
    (idsOf exC2).Nodup ∧ ¬ (flattenIds exC2).Perm (idsOf exC2) := by
  decide

/-- A well-formed list with a root, a child and an orphan (parent absent
from the input set). -/
def exC2w : List MenuItem :=
  [⟨1, none, "RK", none, none, 0, none, 1, true, false⟩,
   ⟨2, some 1, "Supply", some "/rk/supply", none, 1, none, 1, true, false⟩,
   ⟨3, some 99, "Orphan", none, none, 1, none, 2, true, false⟩]

/-- Witness instantiating the amended round-trip theorem at a concrete
input with an orphaned record. -/
theorem menu_tree_roundtrip_witness :
    (idsOf exC2w).Nodup ∧ acyclicParents exC2w = true ∧
      (flattenIds exC2w).Perm (idsOf exC2w) :=
  ⟨by decide, by decide, (menu_tree_roundtrip exC2w (by decide) (by decide)).1⟩

/-- The `UserInfo` interface of stores/user.ts. -/
structure UserInfo where
  userId : Int
  username : String
  nickName : String
  email : Option String
  phone : Option String
  avatar : Option String
  departmentId : Option Int
  departmentName : Option String
  roleIds : List Int
  roles : List String
deriving DecidableEq, Repr

/-- Payload of a successful `/v1/comm/person` response.  The optional
`nickName`, `roleIds` and `roles` fields are read with JS fallbacks in
the source (`data.nickName || data.username`, `data.roleIds || []`);
absence of `nickName` is modelled by the falsy empty string. -/
structure PersonData where
  id : Int
  username : String
  nickName : String
  email : Option String
  phone : Option String
  avatar : Option String
  departmentId : Option Int
  departmentName : Option String
  roleIds : Option (List Int)
  roles : Option (List String)
deriving DecidableEq, Repr

/-- Payload of a successful `/v1/comm/perms` response
(`permsData.perms || []`). -/
structure PermsData where
  perms : Option (List String)
deriving DecidableEq, Repr

/-- Payload of a successful login or refreshToken response: the access
token plus an optional refresh token (absence modelled by the falsy
empty string, matching `data.refreshToken || ...`). -/
structure TokenPair where
  token : String
  refreshToken : String
deriving DecidableEq, Repr

/-- The user store state: the three reactive refs plus the mirrored
localStorage entries `wa_token`, `wa_refresh_token` and `wa_user_info`
(the serialized profile is modelled structurally). -/
structure SessionState where
  token : String
  refreshToken : String
  userInfo : Option UserInfo
  permissions : List String
  stTok : Option String
  stRefresh : Option String
  stUser : Option UserInfo
deriving DecidableEq, Repr

/-- The profile object assembled by fetchUserInfo from the person
response. -/
def mkUserInfo (d : PersonData) : UserInfo :=
  { userId := d.id
    username := d.username
    nickName := if d.nickName == "" then d.username else d.nickName
    email := d.email
    phone := d.phone
    avatar := d.avatar
    departmentId := d.departmentId
    departmentName := d.departmentName
    roleIds := d.roleIds.getD []
    roles := d.roles.getD [] }

/-- Function `fetchUserInfo` of stores/user.ts, parameterized by the outcomes of
its two requests (`none` = the request rejected).  The profile ref is
assigned before the permission request is sent, and the localStorage
copy of the profile is written only after the permission request
resolves; the boolean reports whether the operation completed. -/
def fetchUserInfo (s : SessionState) (person : Option PersonData)
    (permsResp : Option PermsData) : SessionState × Bool :=
  match person with
  | none => (s, false)
  | some d =>
      let ui := mkUserInfo d
      let s1 := { s with userInfo := some ui }
      match permsResp with
      | none => (s1, false)
      | some pr =>
          ({ s1 with permissions := pr.perms.getD [], stUser := some ui }, true)

/-- Function `login` of stores/user.ts: on a successful login response the tokens
are stored (the refresh-token localStorage entry only when the response
carries one), then the profile fetch runs. -/
def login (s : SessionState) (loginResp : Option TokenPair)
    (person : Option PersonData) (permsResp : Option PermsData) :
    SessionState × Bool :=
  match loginResp with
  | none => (s, false)
  | some d =>
      let s1 := { s with
        token := d.token
        refreshToken := d.refreshToken
        stTok := some d.token
        stRefresh := if d.refreshToken != "" then some d.refreshToken else s.stRefresh }
      fetchUserInfo s1 person permsResp

/-- Function `refreshUserToken` of stores/user.ts: throws when no refresh token
is stored; otherwise exchanges it, keeping the old refresh token when
the response carries none.  On failure (either way) the state is left
untouched — the source performs no logout here. -/
def refreshUserToken (s : SessionState) (resp : Option TokenPair) :
    SessionState × Bool :=
  if s.refreshToken == "" then (s, false)
  else
    match resp with
    | none => (s, false)
    | some d =>
        ({ s with
          token := d.token
          refreshToken := if d.refreshToken != "" then d.refreshToken else s.refreshToken
          stTok := some d.token
          stRefresh := if d.refreshToken != "" then some d.refreshToken else s.stRefresh },
         true)

/-- Function `logout` of stores/user.ts: clears the refs and removes the three
localStorage keys (the redirect to /login is modelled in the guard). -/
def logout (_ : SessionState) : SessionState :=
  { token := ""
    refreshToken := ""
    userInfo := none
    permissions := []
    stTok := none
    stRefresh := none
    stUser := none }

/-- Getter `isLoggedIn`: `!!token`. -/
def isLoggedIn (s : SessionState) : Bool :=
  s.token != ""

/-- Getter `isAdmin`: `userInfo?.username === 'admin'`. -/
def isAdmin (s : SessionState) : Bool :=
  match s.userInfo with
  | some u => u.username == "admin"
  | none => false

/-- Query `hasPermission`: administrator bypass, else membership in the
granted-permission list. -/
def hasPermission (s : SessionState) (permission : String) : Bool :=
  if isAdmin s then true
  else s.permissions.contains permission

/-- Query `hasAnyPermission`: administrator bypass, else `perms.some`. -/
def hasAnyPermission (s : SessionState) (perms : List String) : Bool :=
  if isAdmin s then true
  else perms.any (fun p => s.permissions.contains p)

/-- Query `hasAllPermissions`: administrator bypass, else `perms.every`. -/
def hasAllPermissions (s : SessionState) (perms : List String) : Bool :=
  if isAdmin s then true
  else perms.all (fun p => s.permissions.contains p)

/-- The state at first application start with empty localStorage. -/
def initialSession : SessionState :=
  { token := ""
    refreshToken := ""
    userInfo := none
    permissions := []
    stTok := none
    stRefresh := none
    stUser := none }

/-- One session-store operation together with the outcomes of the
network requests it performs. -/
inductive SessionOp where
  | login (loginResp : Option TokenPair) (person : Option PersonData)
      (permsResp : Option PermsData)
  | fetchInfo (person : Option PersonData) (permsResp : Option PermsData)
  | refresh (resp : Option TokenPair)
  | logout
deriving DecidableEq, Repr

/-- The state after running one operation (discarding the success flag). -/
def applyOp (s : SessionState) : SessionOp → SessionState
  | .login l p pr => (login s l p pr).1
  | .fetchInfo p pr => (fetchUserInfo s p pr).1
  | .refresh r => (refreshUserToken s r).1
  | .logout => logout s

/-- Well-formedness of an operation in a state: successful token
responses carry a non-empty token, a successful login response is
followed by a successful profile fetch, and the profile fetch is only
issued while a token is present (as the application's call sites do). -/
def wfOp (s : SessionState) : SessionOp → Prop
  | .login l p _ =>
      match l with
      | none => True
      | some d => d.token ≠ "" ∧ p ≠ none
  | .fetchInfo _ _ => s.token ≠ ""
  | .refresh r =>
      match r with
      | none => True
      | some d => d.token ≠ ""
  | .logout => True

/-- States reachable from the empty initial state by well-formed
session-store operations. -/
inductive ReachableWF : SessionState → Prop where
  | init : ReachableWF initialSession
  | step {s : SessionState} {op : SessionOp} :
      ReachableWF s → wfOp s op → ReachableWF (applyOp s op)

/-- The C3 invariant: bearer token and user profile are both present or
both absent. -/
def sessionCoherent (s : SessionState) : Prop :=
  s.token ≠ "" ↔ s.userInfo ≠ none

/-- Strengthened induction invariant: coherence plus "a refresh token is
only stored alongside an access token". -/
def sessionCoherent2 (s : SessionState) : Prop :=
  sessionCoherent s ∧ (s.refreshToken ≠ "" → s.token ≠ "")

theorem sessionCoherent2_preserved {s : SessionState} {op : SessionOp}
    (hinv : sessionCoherent2 s) (hwf : wfOp s op) :
    sessionCoherent2 (applyOp s op) := by
  have h1 := hinv.1.mp
  have h2 := hinv.1.mpr
  have h3 := hinv.2
  cases op with
  | login l p pr =>
      cases l with
      | none => exact hinv
      | some d =>
          obtain ⟨htok, hp⟩ := hwf
          cases p with
          | none => exact absurd rfl hp
          | some pd =>
              cases pr with
              | none =>
                  constructor
                  · constructor
                    · intro _; simp [applyOp, login, fetchUserInfo]
                    · intro _; simpa [applyOp, login, fetchUserInfo] using htok
                  · intro _; simpa [applyOp, login, fetchUserInfo] using htok
              | some prd =>
                  constructor
                  · constructor
                    · intro _; simp [applyOp, login, fetchUserInfo]
                    · intro _; simpa [applyOp, login, fetchUserInfo] using htok
                  · intro _; simpa [applyOp, login, fetchUserInfo] using htok
  | fetchInfo p pr =>
      have htok : s.token ≠ "" := hwf
      cases p with
      | none => exact hinv
      | some pd =>
          cases pr with
          | none =>
              constructor
              · constructor
                · intro _; simp [applyOp, fetchUserInfo]
                · intro _; simpa [applyOp, fetchUserInfo] using htok
              · intro hr
                have : s.refreshToken ≠ "" := by
                  simpa [applyOp, fetchUserInfo] using hr
                simpa [applyOp, fetchUserInfo] using h3 this
          | some prd =>
              constructor
              · constructor
                · intro _; simp [applyOp, fetchUserInfo]
                · intro _; simpa [applyOp, fetchUserInfo] using htok
              · intro hr
                have : s.refreshToken ≠ "" := by
                  simpa [applyOp, fetchUserInfo] using hr
                simpa [applyOp, fetchUserInfo] using h3 this
  | refresh r =>
      by_cases hrt : s.refreshToken = ""
      · have : applyOp s (SessionOp.refresh r) = s := by
          simp [applyOp, refreshUserToken, hrt]
        rw [this]
        exact hinv
      · cases r with
        | none =>
            have : applyOp s (SessionOp.refresh none) = s := by
              simp [applyOp, refreshUserToken, hrt]
            rw [this]
            exact hinv
        | some d =>
            have htok : d.token ≠ "" := hwf
            have hstok : s.token ≠ "" := h3 hrt
            have huser : s.userInfo ≠ none := h1 hstok
            constructor
            · constructor
              · intro _; simpa [applyOp, refreshUserToken, hrt] using huser
              · intro _; simpa [applyOp, refreshUserToken, hrt] using htok
            · intro _; simpa [applyOp, refreshUserToken, hrt] using htok
  | logout =>
      constructor
      · constructor
        · intro hc; simp [applyOp, logout] at hc
        · intro hc; simp [applyOp, logout] at hc
      · intro hc; simp [applyOp, logout] at hc

theorem sessionCoherent2_reachable {s : SessionState} (h : ReachableWF s) :
    sessionCoherent2 s := by
  induction h with
  | init =>
      constructor
      · constructor
        · intro hc; simp [initialSession] at hc
        · intro hc; simp [initialSession] at hc
      · intro hc; simp [initialSession] at hc
  | step _ hwf ih => exact sessionCoherent2_preserved ih hwf

/-- C3 (amended): starting from the empty session, every sequence of
well-formed session-store operations — token responses carry non-empty
tokens, a successful login response is followed by a successful profile
fetch, and the profile fetch only runs while a token is present — keeps
the bearer token and the user profile both present or both absent.
Without the restriction on login's profile-fetch leg the invariant
fails: login stores the token before fetching the profile. -/
theorem session_token_profile_coherent (s : SessionState) (h : ReachableWF s) :
    sessionCoherent s :=
  (sessionCoherent2_reachable h).1

/-- Witness: reaching a coherent state by a concrete well-formed login. -/
theorem session_token_profile_coherent_witness :
    sessionCoherent (applyOp initialSession
      (SessionOp.login (some ⟨"t", "r"⟩)
        (some ⟨7, "alice", "", none, none, none, none, none, none, none⟩)
        (some ⟨some ["sys:user:list"]⟩))) :=
  session_token_profile_coherent _
    (ReachableWF.step ReachableWF.init
      (show (("t" : String) ≠ "") ∧
          (some (⟨7, "alice", "", none, none, none, none, none, none, none⟩ : PersonData) ≠ none)
        from ⟨by decide, by simp⟩))

/-- C3 counterexample: a login whose token request succeeds but whose
profile fetch rejects leaves the bearer token stored with no profile —
the state after the listed operation violates the both-or-none
invariant. -/
theorem session_token_profile_counterexample :
    sessionCoherent initialSession ∧
      ¬ sessionCoherent (applyOp initialSession
          (SessionOp.login (some ⟨"t", "r"⟩) none none)) := by
  constructor
  · constructor
    · intro hc; simp [initialSession] at hc
    · intro hc; simp [initialSession] at hc
  · intro hc
    have := hc.1 (by simp [applyOp, initialSession, login, fetchUserInfo])
    simp [applyOp, initialSession, login, fetchUserInfo] at this

/-- A fully authenticated session holding a refresh token. -/
def exS4 : SessionState :=
  { token := "tok"
    refreshToken := "ref"
    userInfo := some ⟨7, "alice", "alice", none, none, none, none, none, [2], ["user"]⟩
    permissions := ["sys:user:list"]
    stTok := some "tok"
    stRefresh := some "ref"
    stUser := some ⟨7, "alice", "alice", none, none, none, none, none, [2], ["user"]⟩ }

/-- C4: when the refresh request is rejected, `refreshUserToken` leaves
the whole session state (memory and storage) untouched and performs no
logout — the state still differs from the logged-out state and reports
as logged in, contradicting the required cascade into `logout()`. -/
theorem refresh_failure_no_logout :
    (refreshUserToken exS4 none).1 = exS4 ∧
      (refreshUserToken exS4 none).2 = false ∧
      isLoggedIn (refreshUserToken exS4 none).1 = true ∧
      (refreshUserToken exS4 none).1 ≠ logout exS4 := by
  decide

/-- C5: for a session whose profile username is the administrator name,
all three permission queries answer true on every input, the empty
string, unknown codes and the empty list included, regardless of the
stored permission list. -/
theorem admin_permission_bypass (s : SessionState) (u : UserInfo)
    (hu : s.userInfo = some u) (ha : u.username = "admin")
    (code : String) (codes : List String) :
    hasPermission s code = true ∧ hasAnyPermission s codes = true ∧
      hasAllPermissions s codes = true := by
  have hadm : isAdmin s = true := by simp [isAdmin, hu, ha]
  simp [hasPermission, hasAnyPermission, hasAllPermissions, hadm]

/-- An administrator session whose stored permission list is empty. -/
def exAdmin : SessionState :=
  { token := "t"
    refreshToken := ""
    userInfo := some ⟨1, "admin", "admin", none, none, none, none, none, [], []⟩
    permissions := []
    stTok := some "t"
    stRefresh := none
    stUser := some ⟨1, "admin", "admin", none, none, none, none, none, [], []⟩ }

/-- Witness: the administrator bypass at the empty code, the empty list
and an unknown code, with an empty granted-permission set. -/
theorem admin_permission_bypass_witness :
    hasPermission exAdmin "" = true ∧ hasAnyPermission exAdmin [] = true ∧
      hasAllPermissions exAdmin ["unknown:code"] = true :=
  ⟨(admin_permission_bypass exAdmin ⟨1, "admin", "admin", none, none, none, none, none, [], []⟩
      rfl rfl "" []).1,
   (admin_permission_bypass exAdmin ⟨1, "admin", "admin", none, none, none, none, none, [], []⟩
      rfl rfl "" []).2.1,
   (admin_permission_bypass exAdmin ⟨1, "admin", "admin", none, none, none, none, none, [], []⟩
      rfl rfl "" ["unknown:code"]).2.2⟩

/-- C10: for a non-administrator session the permission queries are
vacuous on the empty list: `every` of an empty array is true, `some` of
an empty array is false, whatever the granted set holds. -/
theorem nonadmin_empty_perms (s : SessionState) (h : isAdmin s = false) :
    hasAllPermissions s [] = true ∧ hasAnyPermission s [] = false := by
  simp [hasAllPermissions, hasAnyPermission, h]

/-- An ordinary (non-administrator) session. -/
def exNonAdmin : SessionState :=
  { token := "t"
    refreshToken := ""
    userInfo := some ⟨2, "bob", "bob", none, none, none, none, none, [], []⟩
    permissions := ["sys:user:list"]
    stTok := some "t"
    stRefresh := none
    stUser := some ⟨2, "bob", "bob", none, none, none, none, none, [], []⟩ }

/-- Witness: the vacuous empty-list answers for a concrete
non-administrator session. -/
theorem nonadmin_empty_perms_witness :
    hasAllPermissions exNonAdmin [] = true ∧ hasAnyPermission exNonAdmin [] = false :=
  nonadmin_empty_perms exNonAdmin (by decide)

/-- One route record emitted by generateRoutes: path, route name and the
meta block; `componentKey` is the router string handed to the lazy
resolveComponent thunk. -/
structure RouteRec where
  path : String
  name : String
  title : String
  icon : Option String
  keepAlive : Bool
  perms : Option String
  componentKey : String
deriving DecidableEq, Repr

/-- The route generateRoutes pushes for one navigable menu item. -/
def routeOf (it : MenuItem) : RouteRec :=
  { path := it.router.getD ""
    name := it.name
    title := it.name
    icon := it.icon
    keepAlive := it.keepAlive
    perms := it.perms
    componentKey := it.router.getD "" }

/-- generateRoutes' emission condition: `item.type === 1 && item.router`
(navigable-page type with a truthy route path). -/
def navigable (it : MenuItem) : Bool :=
  it.type == 1 && truthyStr it.router

mutual

/-- The routes generateRoutes' traverse pushes for one tree, pre-order:
the node's own route (when navigable) then its descendants'. -/
def genTree : MTree → List RouteRec
  | .node it cs => (if navigable it then [routeOf it] else []) ++ genForest cs

/-- The routes pushed for a forest, left to right. -/
def genForest : List MTree → List RouteRec
  | [] => []
  | t :: ts => genTree t ++ genForest ts

end

/-- Function `generateRoutes` of stores/menu.ts on a given menu forest. -/
def generateRoutes (menus : List MTree) : List RouteRec :=
  genForest menus

mutual

/-- Number of navigable nodes in one tree. -/
def countNavT : MTree → Nat
  | .node it cs => (if navigable it then 1 else 0) + countNavF cs

/-- Number of navigable nodes in a forest. -/
def countNavF : List MTree → Nat
  | [] => 0
  | t :: ts => countNavT t + countNavF ts

end

/-- Modelled from the spec: the router's route table, written to by
`router.addRoute` in part_013.  vue-router's documented `addRoute`
semantics: adding a route whose name is already registered removes the
previously registered route of that name. -/
def addRoute (tbl : List RouteRec) (r : RouteRec) : List RouteRec :=
  tbl.filter (fun x => x.name != r.name) ++ [r]

/-- Registering a batch of generated routes one by one, as the
`dynamicRoutes.forEach(route => router.addRoute('Layout', route))`
loop of part_013 does. -/
def registerRoutes (tbl : List RouteRec) (rs : List RouteRec) : List RouteRec :=
  rs.foldl addRoute tbl

theorem genLen_node (it : MenuItem) (cs : List MTree)
    (h : (genForest cs).length = countNavF cs) :
    (genTree (.node it cs)).length = countNavT (.node it cs) := by
  simp only [genTree, countNavT, List.length_append, h]
  cases hn : navigable it <;> simp [hn]

theorem genLen_cons (t : MTree) (ts : List MTree)
    (h1 : (genTree t).length = countNavT t)
    (h2 : (genForest ts).length = countNavF ts) :
    (genForest (t :: ts)).length = countNavF (t :: ts) := by
  simp [genForest, countNavF, List.length_append, h1, h2]

mutual

theorem genTree_length : ∀ t : MTree, (genTree t).length = countNavT t
  | .node it cs => genLen_node it cs (genForest_length cs)

theorem genForest_length : ∀ ts : List MTree, (genForest ts).length = countNavF ts
  | [] => rfl
  | t :: ts => genLen_cons t ts (genTree_length t) (genForest_length ts)

end

theorem addRoute_names_nodup (tbl : List RouteRec) (r : RouteRec)
    (h : (tbl.map (fun x => x.name)).Nodup) :
    ((addRoute tbl r).map (fun x => x.name)).Nodup := by
  unfold addRoute
  rw [List.map_append]
  apply List.Nodup.append
  · exact ((List.filter_sublist tbl).map (fun x => x.name)).nodup h
  · exact List.nodup_singleton _
  · intro a ha hb
    simp only [List.map_cons, List.map_nil, List.mem_singleton] at hb
    subst hb
    simp only [List.mem_map] at ha
    obtain ⟨x, hx, hxn⟩ := ha
    have hne := (List.mem_filter.mp hx).2
    rw [hxn] at hne
    simp at hne

theorem addRoute_fresh (tbl : List RouteRec) (r : RouteRec)
    (h : r.name ∉ tbl.map (fun x => x.name)) :
    addRoute tbl r = tbl ++ [r] := by
  unfold addRoute
  congr 1
  apply List.filter_eq_self.mpr
  intro x hx
  apply bne_iff_ne.mpr
  intro hcon
  exact h (hcon ▸ List.mem_map_of_mem (fun y => y.name) hx)

theorem filter_ne_eq_self_of_count_zero (r : RouteRec) :
    ∀ tbl : List RouteRec, r.name ∉ tbl.map (fun x => x.name) →
      tbl.filter (fun x => x.name != r.name) = tbl := by
  intro tbl h
  apply List.filter_eq_self.mpr
  intro x hx
  apply bne_iff_ne.mpr
  intro hcon
  exact h (hcon ▸ List.mem_map_of_mem (fun y => y.name) hx)

theorem addRoute_length_mem (r : RouteRec) :
    ∀ tbl : List RouteRec, (tbl.map (fun x => x.name)).Nodup →
      r.name ∈ tbl.map (fun x => x.name) →
      (addRoute tbl r).length = tbl.length := by
  intro tbl
  induction tbl with
  | nil => intro _ hmem; cases hmem
  | cons x rest ih =>
      intro hnd hmem
      rw [List.map_cons, List.nodup_cons] at hnd
      show ((x :: rest).filter (fun y => y.name != r.name) ++ [r]).length =
        (x :: rest).length
      by_cases hx : x.name = r.name
      · have hnotin : r.name ∉ rest.map (fun y => y.name) := hx ▸ hnd.1
        have hfil : (x :: rest).filter (fun y => y.name != r.name) = rest := by
          rw [List.filter_cons]
          have hcond : (x.name != r.name) = false := by simp [hx]
          rw [hcond]
          simp only [Bool.false_eq_true, if_false]
          exact filter_ne_eq_self_of_count_zero r rest hnotin
        rw [hfil]
        simp
      · have hmem2 : r.name ∈ rest.map (fun y => y.name) := by
          rcases List.mem_cons.mp hmem with hc | h2
          · exact absurd hc.symm hx
          · exact h2
        have hlen2 : (rest.filter (fun y => y.name != r.name) ++ [r]).length =
            rest.length := ih hnd.2 hmem2
        have hfil : (x :: rest).filter (fun y => y.name != r.name) =
            x :: rest.filter (fun y => y.name != r.name) := by
          rw [List.filter_cons]
          have hcond : (x.name != r.name) = true := bne_iff_ne.mpr hx
          rw [hcond]
          simp
        rw [hfil]
        simp only [List.cons_append, List.length_cons]
        rw [hlen2]

theorem addRoute_names_mem (tbl : List RouteRec) (r : RouteRec) (x : String) :
    x ∈ (addRoute tbl r).map (fun y => y.name) ↔
      x ∈ tbl.map (fun y => y.name) ∨ x = r.name := by
  unfold addRoute
  rw [List.map_append]
  simp only [List.mem_append, List.mem_map, List.mem_filter, List.map_cons,
    List.map_nil, List.mem_singleton]
  constructor
  · rintro (⟨y, ⟨hy, _⟩, hn⟩ | hr)
    · exact Or.inl ⟨y, hy, hn⟩
    · exact Or.inr hr
  · rintro (⟨y, hy, hn⟩ | hr)
    · by_cases hyr : x = r.name
      · exact Or.inr hyr
      · exact Or.inl ⟨y, ⟨hy, bne_iff_ne.mpr (fun hc => hyr (hn ▸ hc))⟩, hn⟩
    · exact Or.inr hr

theorem registerRoutes_fresh :
    ∀ (rs tbl : List RouteRec), (rs.map (fun x => x.name)).Nodup →
      (tbl.map (fun x => x.name)).Nodup →
      (∀ r ∈ rs, r.name ∉ tbl.map (fun x => x.name)) →
      (registerRoutes tbl rs).length = tbl.length + rs.length ∧
        ((registerRoutes tbl rs).map (fun x => x.name)).Nodup ∧
        (∀ x, x ∈ (registerRoutes tbl rs).map (fun y => y.name) ↔
          x ∈ tbl.map (fun y => y.name) ∨ x ∈ rs.map (fun y => y.name)) := by
  intro rs
  induction rs with
  | nil =>
      intro tbl _ hnd _
      refine ⟨by simp [registerRoutes], by simpa [registerRoutes] using hnd, ?_⟩
      intro x
      simp [registerRoutes]
  | cons r rs ih =>
      intro tbl hrs hnd hfresh
      rw [List.map_cons, List.nodup_cons] at hrs
      have hrnot : r.name ∉ tbl.map (fun x => x.name) :=
        hfresh r (List.mem_cons_self r rs)
      have hstep : registerRoutes tbl (r :: rs) = registerRoutes (addRoute tbl r) rs := by
        simp [registerRoutes]
      have heq : addRoute tbl r = tbl ++ [r] := addRoute_fresh tbl r hrnot
      have hnd2 : ((addRoute tbl r).map (fun x => x.name)).Nodup :=
        addRoute_names_nodup tbl r hnd
      have hfresh2 : ∀ q ∈ rs, q.name ∉ (addRoute tbl r).map (fun x => x.name) := by
        intro q hq hqmem
        rcases (addRoute_names_mem tbl r q.name).mp hqmem with hin | heqn
        · exact hfresh q (List.mem_cons_of_mem r hq) hin
        · exact hrs.1 (heqn ▸ List.mem_map_of_mem (fun y => y.name) hq)
      obtain ⟨hlen, hndr, hmemr⟩ := ih (addRoute tbl r) hrs.2 hnd2 hfresh2
      rw [hstep]
      refine ⟨?_, hndr, ?_⟩
      · rw [hlen, heq]
        simp only [List.length_append, List.length_cons, List.length_nil]
        omega
      · intro x
        rw [hmemr x, addRoute_names_mem tbl r x]
        simp only [List.map_cons, List.mem_cons]
        tauto

theorem registerRoutes_existing :
    ∀ (rs tbl : List RouteRec), (tbl.map (fun x => x.name)).Nodup →
      (∀ r ∈ rs, r.name ∈ tbl.map (fun x => x.name)) →
      (registerRoutes tbl rs).length = tbl.length := by
  intro rs
  induction rs with
  | nil => intro tbl _ _; simp [registerRoutes]
  | cons r rs ih =>
      intro tbl hnd hmem
      have hrmem : r.name ∈ tbl.map (fun x => x.name) :=
        hmem r (List.mem_cons_self r rs)
      have hstep : registerRoutes tbl (r :: rs) = registerRoutes (addRoute tbl r) rs := by
        simp [registerRoutes]
      have hnd2 : ((addRoute tbl r).map (fun x => x.name)).Nodup :=
        addRoute_names_nodup tbl r hnd
      have hmem2 : ∀ q ∈ rs, q.name ∈ (addRoute tbl r).map (fun x => x.name) := by
        intro q hq
        rw [addRoute_names_mem tbl r q.name]
        exact Or.inl (hmem q (List.mem_cons_of_mem r hq))
      rw [hstep, ih (addRoute tbl r) hnd2 hmem2]
      exact addRoute_length_mem r tbl hnd hrmem

/-- C8 (amended): for a menu tree whose navigable nodes carry pairwise
distinct route names, registering the synthesized routes into an empty
table yields exactly one registered route per navigable node with no
duplicate names, and a second synthesis-and-registration run leaves the
table size unchanged.  When two navigable nodes share a name the
replace-by-name registration collapses them to a single route, so
"exactly one route per navigable node" fails. -/
theorem generateRoutes_idempotent (m : List MTree)
    (hnames : ((generateRoutes m).map (fun r => r.name)).Nodup) :
    (registerRoutes [] (generateRoutes m)).length = countNavF m ∧
      ((registerRoutes [] (generateRoutes m)).map (fun r => r.name)).Nodup ∧
      (registerRoutes (registerRoutes [] (generateRoutes m))
          (generateRoutes m)).length =
        (registerRoutes [] (generateRoutes m)).length := by
  obtain ⟨hlen, hnd, hmem⟩ := registerRoutes_fresh (generateRoutes m) [] hnames
    (by simp) (by simp)
  refine ⟨?_, hnd, ?_⟩
  · rw [hlen]
    simpa [generateRoutes] using genForest_length m
  · apply registerRoutes_existing (generateRoutes m) _ hnd
    intro r hr
    rw [hmem r.name]
    exact Or.inr (List.mem_map_of_mem (fun y => y.name) hr)

/-- Two navigable root records with distinct identifiers but the same
name: registration keyed by route name collapses them to one route. -/
def exC8 : List MenuItem :=
  [⟨1, none, "A", some "/a", none, 1, none, 1, true, false⟩,
   ⟨2, none, "A", some "/b", none, 1, none, 2, true, false⟩]

/-- C8 counterexample: a menu tree with two navigable nodes produces a
route table with a single entry, refuting "exactly one registered route
per navigable node" as stated. -/
theorem routes_per_node_counterexample :
    (idsOf exC8).Nodup ∧ countNavF (buildMenuTree exC8) = 2 ∧
      (registerRoutes [] (generateRoutes (buildMenuTree exC8))).length = 1 := by
  decide

/-- A tree with two navigable nodes carrying distinct names. -/
def exC8w : List MenuItem :=
  [⟨1, none, "Dash", some "/dashboard", none, 1, none, 1, true, true⟩,
   ⟨2, none, "Sys", none, none, 0, none, 2, true, false⟩,
   ⟨3, some 2, "User", some "/system/user", some "sys:user:list", 1, none, 1, true, false⟩]

/-- Witness instantiating the idempotence theorem on a concrete tree. -/
theorem generateRoutes_idempotent_witness :
    ((generateRoutes (buildMenuTree exC8w)).map (fun r => r.name)).Nodup ∧
      (registerRoutes [] (generateRoutes (buildMenuTree exC8w))).length =
        countNavF (buildMenuTree exC8w) ∧
      (registerRoutes (registerRoutes [] (generateRoutes (buildMenuTree exC8w)))
          (generateRoutes (buildMenuTree exC8w))).length =
        (registerRoutes [] (generateRoutes (buildMenuTree exC8w))).length :=
  ⟨by decide,
   (generateRoutes_idempotent (buildMenuTree exC8w) (by decide)).1,
   (generateRoutes_idempotent (buildMenuTree exC8w) (by decide)).2.2⟩

/-- The route meta block the guard of part_013 inspects. -/
structure RouteMeta where
  public : Bool
  perms : Option String
deriving DecidableEq, Repr

/-- The target of a navigation attempt (`to` in the guard). -/
structure RouteTarget where
  path : String
  fullPath : String
  meta : RouteMeta
deriving DecidableEq, Repr

/-- Outcome of one run of the `router.beforeEach` guard: `allow` is
`next()` (the target renders), `redirect` is `next(path)` with an
optional preserved-redirect query, `retry` is the re-dispatch
`next({...to, replace: true})` after route registration. -/
inductive GuardDecision where
  | allow
  | redirect (path : String) (redirectQuery : Option String)
  | retry
deriving DecidableEq, Repr

/-- The responses consumed by a fully successful hydration: profile,
permissions and the flat menu list. -/
structure HydrationData where
  person : PersonData
  permsResp : PermsData
  menuList : List MenuItem
deriving DecidableEq, Repr

/-- The application state the guard touches: the user store, the menu
store and the router's route table. -/
structure AppState where
  session : SessionState
  menus : List MTree
  routeTable : List RouteRec
deriving Repr

/-- The `router.beforeEach` guard of part_013, parameterized by the
outcome of the hydration network calls (`none` = some step of
fetchUserInfo / fetchMenus / route registration threw).  Order of
checks as in the source: public pages (with the login-page redirect for
authenticated users), authentication, first-time hydration with route
registration and re-dispatch (on error: logout and redirect to login),
then the per-route permission gate. -/
def guardStep (st : AppState) (tgt : RouteTarget) (hydr : Option HydrationData) :
    GuardDecision × AppState :=
  if tgt.meta.public then
    if tgt.path == "/login" && isLoggedIn st.session then
      (GuardDecision.redirect "/" none, st)
    else (GuardDecision.allow, st)
  else if !(isLoggedIn st.session) then
    (GuardDecision.redirect "/login" (some tgt.fullPath), st)
  else if st.session.userInfo.isNone then
    match hydr with
    | some h =>
        let s1 := (fetchUserInfo st.session (some h.person) (some h.permsResp)).1
        let menus1 := buildMenuTree h.menuList
        (GuardDecision.retry,
         { session := s1
           menus := menus1
           routeTable := registerRoutes st.routeTable (generateRoutes menus1) })
    | none =>
        (GuardDecision.redirect "/login" none, { st with session := logout st.session })
  else
    match tgt.meta.perms with
    | some p =>
        if p != "" && !(hasPermission st.session p) then
          (GuardDecision.redirect "/403" none, st)
        else (GuardDecision.allow, st)
    | none => (GuardDecision.allow, st)

/-- C6: for a navigation to a non-public target by an authenticated but
not-yet-hydrated session, a failing hydration makes the guard log the
session out (clearing memory and storage) and redirect to the login
route; the protected target is never allowed to render. -/
theorem guard_hydration_failure (st : AppState) (tgt : RouteTarget)
    (hpub : tgt.meta.public = false) (hlog : isLoggedIn st.session = true)
    (hui : st.session.userInfo = none) :
    (guardStep st tgt none).1 = GuardDecision.redirect "/login" none ∧
      (guardStep st tgt none).2.session = logout st.session ∧
      isLoggedIn (guardStep st tgt none).2.session = false ∧
      (guardStep st tgt none).1 ≠ GuardDecision.allow := by
  have h1 : guardStep st tgt none =
      (GuardDecision.redirect "/login" none, { st with session := logout st.session }) := by
    simp [guardStep, hpub, hlog, hui]
  rw [h1]
  refine ⟨rfl, rfl, ?_, ?_⟩
  · simp [isLoggedIn, logout]
  · simp

/-- A protected route target. -/
def exTo : RouteTarget :=
  ⟨"/rk/supply", "/rk/supply", ⟨false, some "rk:supply:page"⟩⟩

/-- An authenticated session whose profile is not yet hydrated. -/
def exStC6 : AppState :=
  ⟨{ token := "t"
     refreshToken := ""
     userInfo := none
     permissions := []
     stTok := some "t"
     stRefresh := none
     stUser := none }, [], []⟩

/-- Witness: the failing-hydration logout on a concrete state and target. -/
theorem guard_hydration_failure_witness :
    (guardStep exStC6 exTo none).1 = GuardDecision.redirect "/login" none ∧
      (guardStep exStC6 exTo none).2.session = logout exStC6.session :=
  ⟨(guard_hydration_failure exStC6 exTo rfl (by decide) rfl).1,
   (guard_hydration_failure exStC6 exTo rfl (by decide) rfl).2.1⟩

/-- The value resolveComponent evaluates to: the exact-match module,
the index-fallback module, or the 404 placeholder view. -/
inductive ViewRef where
  | exactView (path : String)
  | indexView (path : String)
  | notFound
deriving DecidableEq, Repr

/-- Function `resolveComponent` of stores/menu.ts, with the glob of available
view modules passed in as the list of their keys: drop one leading
slash, try `/src/views/<path>.vue`, then `/src/views/<path>/index.vue`,
else fall back to the 404 view.  Total by construction: every input
yields a view reference, it never throws. -/
def resolveComponent (modules : List String) (router : String) : ViewRef :=
  let path := if router.startsWith "/" then router.drop 1 else router
  let componentPath := "/src/views/" ++ path ++ ".vue"
  if modules.contains componentPath then ViewRef.exactView componentPath
  else
    let indexPath := "/src/views/" ++ path ++ "/index.vue"
    if modules.contains indexPath then ViewRef.indexView indexPath
    else ViewRef.notFound

/-- The spec's stripping step: remove a leading separator. -/
def stripSep (router : String) : String :=
  if router.startsWith "/" then router.drop 1 else router

/-- The spec's candidate order: exact-match file first, then the index
file. -/
def specCandidates (path : String) : List ViewRef :=
  [ViewRef.exactView ("/src/views/" ++ path ++ ".vue"),
   ViewRef.indexView ("/src/views/" ++ path ++ "/index.vue")]

/-- The module path a candidate refers to. -/
def viewPath : ViewRef → Option String
  | .exactView p => some p
  | .indexView p => some p
  | .notFound => none

/-- Modelled from the spec (§4.3 view resolution): strip the leading
separator, take the first candidate whose file exists — exact match
preferred over index fallback — and otherwise emit the not-found
placeholder rather than throwing. -/
def specResolve (modules : List String) (router : String) : ViewRef :=
  match (specCandidates (stripSep router)).find?
      (fun c =>
        match viewPath c with
        | some p => modules.contains p
        | none => false) with
  | some c => c
  | none => ViewRef.notFound

/-- C9: view resolution is deterministic and total and follows the
spec's convention exactly — leading separator stripped, exact match
preferred, index fallback second, not-found placeholder otherwise. -/
theorem resolveComponent_matches_spec (modules : List String) (router : String) :
    resolveComponent modules router = specResolve modules router := by
  simp only [resolveComponent, specResolve, specCandidates, stripSep, viewPath,
    List.find?]
  by_cases h1 :
      ("/src/views/" ++ (if router.startsWith "/" then router.drop 1 else router) ++ ".vue") ∈ modules
  · simp [h1]
  · by_cases h2 :
        ("/src/views/" ++ (if router.startsWith "/" then router.drop 1 else router) ++ "/index.vue") ∈ modules
    · simp [h1, h2]
    · simp [h1, h2]

/-- The response envelope of the claude_code client (`ApiResponse` of
api/request.ts); `code` is `none` when the body carries no numeric code
(the non-standard-response branch). -/
structure ApiResponse (α : Type) where
  code : Option Int
  message : String
  data : α
deriving DecidableEq, Repr

/-- What the claude_code response interceptor resolves or rejects with. -/
inductive ClaudeResult (α : Type) where
  | unwrapped (payload : α)
  | raw (code : Option Int) (message : String) (data : α)
  | rejected (msg : String)
deriving DecidableEq, Repr

/-- The response interceptor of api/request.ts (claude_code): numeric
code 1000 resolves with the unwrapped `data.data`; 1001 and every other
numeric code reject with the server message (a default text when the
message is empty); a body without numeric code is returned as-is. -/
def handleResponse {α : Type} (body : ApiResponse α) : ClaudeResult α :=
  match body.code with
  | some c =>
      if c == 1000 then ClaudeResult.unwrapped body.data
      else if c == 1001 then
        ClaudeResult.rejected (if body.message == "" then "操作失败" else body.message)
      else ClaudeResult.rejected (if body.message == "" then "请求失败" else body.message)
  | none => ClaudeResult.raw body.code body.message body.data

/-- An envelope with a numeric code and a `result` payload field, as
consumed by the part_021 interceptor. -/
structure EnvelopeBody (α : Type) where
  code : Int
  message : String
  result : α
deriving DecidableEq, Repr

/-- What the part_021 and qwn_code interceptors resolve or reject with:
either the unwrapped payload, or the whole envelope, or a rejection. -/
inductive SimpleResult (α : Type) where
  | payload (a : α)
  | envelope (code : Int) (message : String) (data : α)
  | rejected (msg : String)
deriving DecidableEq, Repr

/-- The response interceptor of part_021: code 1000 resolves with the
unwrapped `data.result`, anything else rejects with the server message. -/
def part021Handle {α : Type} (body : EnvelopeBody α) : SimpleResult α :=
  if body.code == 1000 then SimpleResult.payload body.result
  else SimpleResult.rejected (if body.message == "" then "业务错误" else body.message)

/-- The envelope consumed by the qwn_code interceptor (payload in
`data`). -/
structure QwnBody (α : Type) where
  code : Int
  message : String
  data : α
deriving DecidableEq, Repr

/-- The response interceptor of api/http.ts (qwn_code): a non-1000 code
rejects with the server message; code 1000 resolves with
`response.data` — the whole envelope object, not the payload field. -/
def qwnHandle {α : Type} (body : QwnBody α) : SimpleResult α :=
  if body.code != 1000 then
    SimpleResult.rejected (if body.message == "" then "请求失败" else body.message)
  else SimpleResult.envelope body.code body.message body.data

/-- C7 (amended): in the claude_code client and the part_021 client a
numeric envelope code of 1000 resolves the operation with the unwrapped
payload (`data` / `result` field) and any other code rejects it with the
server message (when non-empty; a default text substitutes for an empty
message).  The qwn_code client rejects non-1000 codes the same way, but
on code 1000 it resolves with the entire envelope object rather than
the unwrapped payload. -/
theorem envelope_code_semantics :
    (∀ (α : Type) (body : ApiResponse α) (c : Int), body.code = some c →
      (c = 1000 → handleResponse body = ClaudeResult.unwrapped body.data) ∧
      (c ≠ 1000 → ∃ m, handleResponse body = ClaudeResult.rejected m ∧
        (body.message ≠ "" → m = body.message))) ∧
    (∀ (α : Type) (body : EnvelopeBody α),
      (body.code = 1000 → part021Handle body = SimpleResult.payload body.result) ∧
      (body.code ≠ 1000 → ∃ m, part021Handle body = SimpleResult.rejected m ∧
        (body.message ≠ "" → m = body.message))) ∧
    (∀ (α : Type) (body : QwnBody α),
      (body.code = 1000 →
        qwnHandle body = SimpleResult.envelope body.code body.message body.data) ∧
      (body.code ≠ 1000 → ∃ m, qwnHandle body = SimpleResult.rejected m ∧
        (body.message ≠ "" → m = body.message))) := by
  refine ⟨?_, ?_, ?_⟩
  · intro α body c hc
    constructor
    · intro h1000
      subst h1000
      simp [handleResponse, hc]
    · intro hne
      by_cases hm : body.message = ""
      · by_cases h1001 : c = 1001
        · exact ⟨"操作失败", by subst h1001; simp [handleResponse, hc, hm], fun hc2 => absurd hm hc2⟩
        · exact ⟨"请求失败", by simp [handleResponse, hc, hm, hne, h1001], fun hc2 => absurd hm hc2⟩
      · by_cases h1001 : c = 1001
        · exact ⟨body.message, by subst h1001; simp [handleResponse, hc, hm], fun _ => rfl⟩
        · exact ⟨body.message, by simp [handleResponse, hc, hm, hne, h1001], fun _ => rfl⟩
  · intro α body
    constructor
    · intro h1000
      simp [part021Handle, h1000]
    · intro hne
      by_cases hm : body.message = ""
      · exact ⟨"业务错误", by simp [part021Handle, hne, hm], fun hc2 => absurd hm hc2⟩
      · exact ⟨body.message, by simp [part021Handle, hne, hm], fun _ => rfl⟩
  · intro α body
    constructor
    · intro h1000
      simp [qwnHandle, h1000]
    · intro hne
      by_cases hm : body.message = ""
      · exact ⟨"请求失败", by simp [qwnHandle, hne, hm], fun hc2 => absurd hm hc2⟩
      · exact ⟨body.message, by simp [qwnHandle, hne, hm], fun _ => rfl⟩

/-- Witness: the envelope semantics at concrete responses — a 1000
response unwrapping its payload in the claude_code and part_021
clients, and a business-error response rejecting with the server
message. -/
theorem envelope_code_semantics_witness :
    handleResponse (⟨some 1000, "ok", (7 : Int)⟩ : ApiResponse Int) =
        ClaudeResult.unwrapped 7 ∧
      part021Handle (⟨1000, "ok", (8 : Int)⟩ : EnvelopeBody Int) =
        SimpleResult.payload 8 ∧
      (∃ m, handleResponse (⟨some 1001, "dup", (0 : Int)⟩ : ApiResponse Int) =
          ClaudeResult.rejected m ∧ (("dup" : String) ≠ "" → m = "dup")) :=
  ⟨(envelope_code_semantics.1 Int ⟨some 1000, "ok", 7⟩ 1000 rfl).1 rfl,
   (envelope_code_semantics.2.1 Int ⟨1000, "ok", 8⟩).1 rfl,
   (envelope_code_semantics.1 Int ⟨some 1001, "dup", 0⟩ 1001 rfl).2 (by decide)⟩

/-- C7 counterexample: the qwn_code client resolves a code-1000 response
with the whole envelope object, which differs from the unwrapped
payload — refuting "the client returns the unwrapped payload" for that
cited client. -/
theorem envelope_unwrap_counterexample :
    qwnHandle (⟨1000, "ok", (7 : Int)⟩ : QwnBody Int) =
        SimpleResult.envelope 1000 "ok" 7 ∧
      SimpleResult.envelope 1000 "ok" (7 : Int) ≠ SimpleResult.payload 7 := by
  decide

end WA
